import Mathlib

/-!
Verification of the concurrent content-hashing pipeline in
`src/download_and_hash.py` (class `RepositoryHandler`).

The development shallowly embeds the three core operations:

* `hash_file`   — streaming SHA-256 over a file read in `CHUNK_SIZE` chunks
                  (source lines 37-51);
* `collect_files` — recursive discovery via `Path.rglob("*")` filtered by
                  `is_file()` and `".git" not in parts` (source lines 68-77);
* `compute_hashes` — one hashing task per file, joined with
                  `asyncio.gather`, zipped with the input paths
                  (source lines 79-89).

File contents are byte lists (`List Nat`, each element < 256 where it
matters).  `hashlib.sha256` is Python's standard library implementation of
FIPS 180-4 SHA-256; it is embedded here as an executable SHA-256 over byte
lists (`sha256hex`), validated below against the standard test vectors for
the empty input and for `"hello"`.

Exceptions are modelled with `Except`: a per-file read failure is an
`Except.error`, and `asyncio.gather` without `return_exceptions` propagates
the failure of any task to the caller of `compute_hashes`, which is modelled
by the monadic `gatherE`.

The filesystem seen by `Path.rglob` is modelled by the inductive `FSEntry`
(regular files, directories, symbolic links carrying the entry they resolve
to).  CPython 3.11 `pathlib` behaviour that the claims depend on is embedded
faithfully:

* `Path.is_file()` follows symbolic links (`os.stat` without
  `follow_symlinks=False`), so a symlink resolving to a regular file counts
  as a file;
* the recursive wildcard of `rglob` does not descend through symbolic links
  to directories;
* `_RecursiveWildcardSelector._iterate_directories` swallows `OSError` and
  `_select_from` swallows `PermissionError`, so a missing or unreadable root
  produces an empty iteration rather than an exception.
-/

namespace DownloadAndHash

/-! ## SHA-256 (model of `hashlib.sha256`, FIPS 180-4) -/

/-- Truncation to a 32-bit word. -/
def w32 (x : Nat) : Nat := x % 4294967296

/-- Right rotation of a 32-bit word by `n` bits (for `x < 2^32`). -/
def rotr (n x : Nat) : Nat := w32 (x / 2 ^ n + x % 2 ^ n * 2 ^ (32 - n))

def bsig0 (x : Nat) : Nat := rotr 2 x ^^^ rotr 13 x ^^^ rotr 22 x

def bsig1 (x : Nat) : Nat := rotr 6 x ^^^ rotr 11 x ^^^ rotr 25 x

def ssig0 (x : Nat) : Nat := rotr 7 x ^^^ rotr 18 x ^^^ x / 2 ^ 3

def ssig1 (x : Nat) : Nat := rotr 17 x ^^^ rotr 19 x ^^^ x / 2 ^ 10

def chf (x y z : Nat) : Nat := (x &&& y) ^^^ ((x ^^^ 4294967295) &&& z)

def majf (x y z : Nat) : Nat := (x &&& y) ^^^ (x &&& z) ^^^ (y &&& z)

/-- The 64 SHA-256 round constants, in decimal. -/
def K256 : List Nat :=
  [1116352408, 1899447441, 3049323471, 3921009573,
   961987163, 1508970993, 2453635748, 2870763221,
   3624381080, 310598401, 607225278, 1426881987,
   1925078388, 2162078206, 2614888103, 3248222580,
   3835390401, 4022224774, 264347078, 604807628,
   770255983, 1249150122, 1555081692, 1996064986,
   2554220882, 2821834349, 2952996808, 3210313671,
   3336571891, 3584528711, 113926993, 338241895,
   666307205, 773529912, 1294757372, 1396182291,
   1695183700, 1986661051, 2177026350, 2456956037,
   2730485921, 2820302411, 3259730800, 3345764771,
   3516065817, 3600352804, 4094571909, 275423344,
   430227734, 506948616, 659060556, 883997877,
   958139571, 1322822218, 1537002063, 1747873779,
   1955562222, 2024104815, 2227730452, 2361852424,
   2428436474, 2756734187, 3204031479, 3329325298]

/-- The eight 32-bit working variables of the compression function. -/
structure HState where
  a : Nat
  b : Nat
  c : Nat
  d : Nat
  e : Nat
  f : Nat
  g : Nat
  h : Nat
deriving Repr, DecidableEq

/-- Initial SHA-256 hash value, in decimal. -/
def initH : HState :=
  ⟨1779033703, 3144134277, 1013904242, 2773480762,
   1359893119, 2600822924, 528734635, 1541459225⟩

/-- One round of the compression function; `kw` pairs the round constant
with the scheduled message word. -/
def roundStep (st : HState) (kw : Nat × Nat) : HState :=
  let t1 := w32 (st.h + bsig1 st.e + chf st.e st.f st.g + kw.1 + kw.2)
  let t2 := w32 (bsig0 st.a + majf st.a st.b st.c)
  ⟨w32 (t1 + t2), st.a, st.b, st.c, w32 (st.d + t1), st.e, st.f, st.g⟩

/-- Big-endian grouping of bytes into 32-bit words. -/
def bytesToWords : List Nat → List Nat
  | b0 :: b1 :: b2 :: b3 :: rest =>
      (((b0 * 256 + b1) * 256 + b2) * 256 + b3) :: bytesToWords rest
  | _ => []

/-- Message-schedule extension: `ws` holds the words produced so far in
reverse order; `k` more words are appended. -/
def extendW : Nat → List Nat → List Nat
  | 0, ws => ws
  | k + 1, ws =>
      extendW k
        (w32 (ssig1 (ws.getD 1 0) + ws.getD 6 0 +
              ssig0 (ws.getD 14 0) + ws.getD 15 0) :: ws)

/-- The 64-word message schedule of one 64-byte block. -/
def schedule (block : List Nat) : List Nat :=
  (extendW 48 (bytesToWords block).reverse).reverse

/-- Compression of one 64-byte block into the running hash value. -/
def compressBlock (st : HState) (block : List Nat) : HState :=
  let t := (K256.zip (schedule block)).foldl roundStep st
  ⟨w32 (st.a + t.a), w32 (st.b + t.b), w32 (st.c + t.c), w32 (st.d + t.d),
   w32 (st.e + t.e), w32 (st.f + t.f), w32 (st.g + t.g), w32 (st.h + t.h)⟩

/-- Big-endian 8-byte encoding of the message bit length (mod `2^64`). -/
def lenBytes (n : Nat) : List Nat :=
  [n / 2 ^ 56 % 256, n / 2 ^ 48 % 256, n / 2 ^ 40 % 256, n / 2 ^ 32 % 256,
   n / 2 ^ 24 % 256, n / 2 ^ 16 % 256, n / 2 ^ 8 % 256, n % 256]

/-- SHA-256 padding: a `0x80` byte, zeros to 56 mod 64, then the length. -/
def padMsg (msg : List Nat) : List Nat :=
  msg ++ 128 :: List.replicate ((64 - (msg.length + 9) % 64) % 64) 0 ++
    lenBytes (8 * msg.length)

/-- Splitting a byte list into 64-byte blocks; the fuel argument is a bound
on the number of blocks and makes the recursion structural. -/
def toBlocksF : Nat → List Nat → List (List Nat)
  | _, [] => []
  | 0, _ => []
  | fuel + 1, l => l.take 64 :: toBlocksF fuel (l.drop 64)

/-- Splitting the padded message into 64-byte blocks: each recursive step
consumes at least one byte, so `l.length` is enough fuel. -/
def toBlocks (l : List Nat) : List (List Nat) := toBlocksF l.length l

/-- The SHA-256 state after absorbing the whole (padded) message. -/
def sha256 (msg : List Nat) : HState :=
  (toBlocks (padMsg msg)).foldl compressBlock initH

/-- Big-endian byte decomposition of a 32-bit word. -/
def wordBytes (w : Nat) : List Nat :=
  [w / 2 ^ 24 % 256, w / 2 ^ 16 % 256, w / 2 ^ 8 % 256, w % 256]

/-- Lower-case hexadecimal digit. -/
def hexDigit (n : Nat) : Char :=
  Char.ofNat (if n < 10 then 48 + n else 87 + n)

/-- Two hexadecimal characters of one byte. -/
def byteHex (b : Nat) : List Char := [hexDigit (b / 16 % 16), hexDigit (b % 16)]

/-- Model of `hashlib.sha256(msg).hexdigest()`: the hex-encoded SHA-256
digest of a byte sequence. -/
def sha256hex (msg : List Nat) : String :=
  String.mk ((([(sha256 msg).a, (sha256 msg).b, (sha256 msg).c,
      (sha256 msg).d, (sha256 msg).e, (sha256 msg).f, (sha256 msg).g,
      (sha256 msg).h].map wordBytes).flatten.map byteHex).flatten)

set_option maxRecDepth 4000

/-! ## Errors raised by the modelled Python operations -/

/-- The exception kinds the pipeline can raise: `OSError`/`IOError` on a
file read, `FileNotFoundError`, `PermissionError`. -/
inductive PyErr where
  | ioError
  | notFoundError
  | permissionError
deriving DecidableEq, Repr

deriving instance DecidableEq for Except

/-- A discovered path, as its components relative to the repository root
(the constant leading components of the absolute path are omitted; the
`.git` filter of the source only ever matches inside the freshly created
temporary root). -/
abbrev FPath := List String

/-! ## `hash_file` (source lines 37-51): streaming SHA-256 in chunks -/

/-- Size of each read in `hash_file` (source line 21). -/
def CHUNK_SIZE : Nat := 8192

/-- The `while True` read loop of `hash_file`: `acc` is the byte stream fed
to the hash accumulator so far, `rest` the bytes not yet read; each
iteration reads `min c (rest.length)` bytes and stops on an empty chunk.
The fuel argument bounds the number of iterations and makes the recursion
structural; each non-final iteration consumes at least one byte, so
`rest.length + 1` is always enough fuel. -/
def readLoopF : Nat → Nat → List Nat → List Nat → List Nat
  | 0, _, acc, _ => acc
  | fuel + 1, c, acc, rest =>
      if rest.take c = [] then acc
      else readLoopF fuel c (acc ++ rest.take c) (rest.drop c)

/-- The digest `hash_file` produces for a file whose full byte content is
`content`, when reading in chunks of `c` bytes. -/
def digestStream (c : Nat) (content : List Nat) : String :=
  sha256hex (readLoopF (content.length + 1) c [] content)

/-- Model of `RepositoryHandler.hash_file` with the chunk size as an
explicit argument.  `read` models `aiofiles.open` plus the reads of the
file at a given path: the file's byte content, or the `OSError` the
operating system raises.  A raised error propagates out of `hash_file`
(the source has no try/except here). -/
def hash_file_chunked (c : Nat) (read : FPath → Except PyErr (List Nat))
    (file_path : FPath) : Except PyErr String :=
  match read file_path with
  | .error e => .error e
  | .ok content => .ok (digestStream c content)

/-- `RepositoryHandler.hash_file` reads with the global `CHUNK_SIZE`. -/
def hash_file (read : FPath → Except PyErr (List Nat)) (file_path : FPath) :
    Except PyErr String :=
  hash_file_chunked CHUNK_SIZE read file_path

/-! ## The filesystem model and `collect_files` (source lines 68-77) -/

/-- A filesystem entry as seen by one `scandir` step of `Path.rglob`: a
regular file with its byte content, a directory with its children, or a
symbolic link carrying the entry its target chain resolves to. -/
inductive FSEntry where
  | file (name : String) (content : List Nat)
  | dir (name : String) (children : List FSEntry)
  | symlink (name : String) (target : FSEntry)

def entryName : FSEntry → String
  | .file n _ => n
  | .dir n _ => n
  | .symlink n _ => n

/-- Following a chain of symbolic links to the final entry. -/
def resolveEntry : FSEntry → FSEntry
  | .symlink _ t => resolveEntry t
  | e => e

/-- Model of `Path.is_file()`: it stats *following* symbolic links, so a
symlink whose target chain ends at a regular file counts as a file. -/
def is_file (e : FSEntry) : Bool :=
  match resolveEntry e with
  | .file _ _ => true
  | _ => false

/-- Model of the iteration of `self.repo_path.rglob("*")` restricted to a
list of sibling entries under the path `pre`: every entry is yielded with
its path, directories are descended into, and symbolic links are yielded
but not descended into (the `**` wildcard of CPython `pathlib` does not
follow directory symlinks).  The enumeration order differs from CPython's
directory-by-directory order; no property proved below depends on it. -/
def rglobList : List String → List FSEntry → List (FPath × FSEntry)
  | _, [] => []
  | pre, FSEntry.file n c :: es =>
      (pre ++ [n], FSEntry.file n c) :: rglobList pre es
  | pre, FSEntry.dir n ch :: es =>
      (pre ++ [n], FSEntry.dir n ch) ::
        (rglobList (pre ++ [n]) ch ++ rglobList pre es)
  | pre, FSEntry.symlink n t :: es =>
      (pre ++ [n], FSEntry.symlink n t) :: rglobList pre es

/-- State of the root directory `collect_files` walks. -/
inductive RootState where
  | missing
  | unreadable (entries : List FSEntry)
  | present (entries : List FSEntry)

/-- Model of `RepositoryHandler.collect_files` (source lines 68-77): the
list comprehension over `rglob("*")` keeping entries with `is_file()` and
without `".git"` among the path components.  CPython 3.11 `pathlib`
swallows `OSError` in `_RecursiveWildcardSelector._iterate_directories`
and `PermissionError` in `_select_from`, so a missing or unreadable root
yields an empty iteration instead of raising; the `Except` codomain
records that the Python function could in principle surface an
exception, which this embedding shows it never does. -/
def collect_files (root : RootState) : Except PyErr (List FPath) :=
  match root with
  | .missing => .ok []
  | .unreadable _ => .ok []
  | .present es =>
      .ok (((rglobList [] es).filter
        (fun pe => is_file pe.2 && !(pe.1.contains ".git"))).map Prod.fst)

/-- First entry with the given name among siblings (a real directory
listing has distinct names). -/
def childNamed (n : String) (es : List FSEntry) : Option FSEntry :=
  es.find? (fun e => entryName e == n)

/-- The entry reached from a sibling list by following the components of a
relative path, resolving symbolic links at intermediate directories. -/
def entryAt : List FSEntry → List String → Option FSEntry
  | _, [] => none
  | es, [n] => childNamed n es
  | es, n :: rest =>
      match childNamed n es with
      | none => none
      | some e =>
          match resolveEntry e with
          | FSEntry.dir _ ch => entryAt ch rest
          | _ => none

/-- Model of opening and fully reading the file at path `p` under the
root: the byte content on success, or the `OSError` the open raises (a
missing root or entry gives `FileNotFoundError`, an unreadable root
`PermissionError`, opening a directory `IsADirectoryError`). -/
def readEntry (root : RootState) (p : FPath) : Except PyErr (List Nat) :=
  match root with
  | .missing => .error .notFoundError
  | .unreadable _ => .error .permissionError
  | .present es =>
      match entryAt es p with
      | none => .error .notFoundError
      | some e =>
          match resolveEntry e with
          | FSEntry.file _ c => .ok c
          | _ => .error .ioError

/-! ## `compute_hashes` (source lines 79-89) -/

/-- Model of `await asyncio.gather(*tasks)` with the default
`return_exceptions=False`: if every task succeeds, the list of their
results in task order; if any task raises, the exception propagates to the
awaiter and no result list is produced (the model propagates the first
failing task in list order; which sibling exception wins is timing
dependent in the source, but *that* some exception propagates and no
aggregation is returned is not). -/
def gatherE : List (Except PyErr String) → Except PyErr (List String)
  | [] => .ok []
  | t :: ts =>
      match t with
      | .error e => .error e
      | .ok r =>
          match gatherE ts with
          | .error e => .error e
          | .ok rs => .ok (r :: rs)

/-- Model of `RepositoryHandler.compute_hashes` (source lines 79-89): one
`hash_file` task per input path, gathered, then zipped positionally with
the input list. -/
def compute_hashes (read : FPath → Except PyErr (List Nat))
    (files_to_hash : List FPath) : Except PyErr (List (FPath × String)) :=
  match gatherE (files_to_hash.map (fun fp => hash_file read fp)) with
  | .error e => .error e
  | .ok hashes => .ok (files_to_hash.zip hashes)

/-- Model of `RepositoryHandler.process_files` restricted to the value it
aggregates (the logging of each pair is a side effect outside the model):
`compute_hashes` applied to the discovered files, reading from the same
root. -/
def process_files (root : RootState) : Except PyErr (List (FPath × String)) :=
  match collect_files root with
  | .error e => .error e
  | .ok files => compute_hashes (readEntry root) files

/-! ## The task pool spawned by `compute_hashes`

`compute_hashes` hands every `hash_file` coroutine to `asyncio.gather` at
once; no semaphore, queue or worker pool gates them.  Each task opens its
file and holds the descriptor until its final read returns empty.  The
interleaving of tasks is modelled as a step relation on the phase of each
task: not yet opened, holding an open descriptor, or finished.  Every step
is unconditionally enabled — that is the model-level content of "the source
contains no concurrency limit". -/

/-- Phase of one spawned `hash_file` task. -/
inductive TaskPhase where
  | pending
  | opened
  | done
deriving DecidableEq, Repr

/-- One scheduler step among the tasks spawned by `compute_hashes`: any
pending task may open its file, any open task may finish and close it.
No side condition gates the `openFile` step because the source has no
semaphore or pool bound. -/
inductive HashTaskStep : List TaskPhase → List TaskPhase → Prop where
  | openFile (l r : List TaskPhase) :
      HashTaskStep (l ++ TaskPhase.pending :: r) (l ++ TaskPhase.opened :: r)
  | finish (l r : List TaskPhase) :
      HashTaskStep (l ++ TaskPhase.opened :: r) (l ++ TaskPhase.done :: r)

/-- States reachable by the pool of `n` tasks spawned by `compute_hashes`
for `n` input files. -/
def gatherReach (n : Nat) (s : List TaskPhase) : Prop :=
  Relation.ReflTransGen HashTaskStep (List.replicate n TaskPhase.pending) s

/-- Number of simultaneously open file descriptors in a pool state. -/
def openCount (s : List TaskPhase) : Nat := s.count TaskPhase.opened

/-- Read function returning a fixed byte content for every path (used by
the concrete witnesses). -/
def readConst (bs : List Nat) : FPath → Except PyErr (List Nat) :=
  fun _ => Except.ok bs

/-- Read function failing with `IOError` for every path (used by the
concrete witnesses). -/
def readFail : FPath → Except PyErr (List Nat) :=
  fun _ => Except.error PyErr.ioError

/-! ## Helper lemmas -/

/-- Validation of the SHA-256 embedding against the standard test vector
for the empty input. -/
example :
    sha256hex [] =
      "e3b0c44298fc1c149afbf4c8996fb92427ae41e4649b934ca495991b7852b855" := by
  decide

/-- Validation of the SHA-256 embedding against the standard test vector
for the ASCII bytes of `"hello"`. -/
example :
    sha256hex [104, 101, 108, 108, 111] =
      "2cf24dba5fb0a30e26e83b2ac5b9e29e1b161e5c1fa7425e73043362938b9824" := by
  decide

/-- With a positive chunk size and enough fuel, the read loop of
`hash_file` feeds exactly the file's bytes, in order, to the accumulator. -/
theorem readLoopF_spec (c : Nat) (hc : 0 < c) :
    ∀ (fuel : Nat) (rest acc : List Nat), rest.length < fuel →
      readLoopF fuel c acc rest = acc ++ rest := by
  intro fuel
  induction fuel with
  | zero => intro rest acc h; exact absurd h (Nat.not_lt_zero _)
  | succ fuel ih =>
      intro rest acc h
      show (if rest.take c = [] then acc
        else readLoopF fuel c (acc ++ rest.take c) (rest.drop c)) = acc ++ rest
      by_cases htake : rest.take c = []
      · have hrest : rest = [] := by
          rcases List.take_eq_nil_iff.mp htake with h0 | h0
          · exact absurd h0 (by omega)
          · exact h0
        simp [htake, hrest]
      · have hne : rest ≠ [] := fun h0 => htake (by simp [h0])
        have hlen : (rest.drop c).length < fuel := by
          have := List.length_pos.mpr hne
          simp only [List.length_drop]
          omega
        rw [if_neg htake, ih _ _ hlen, List.append_assoc, List.take_append_drop]

/-- The streamed digest equals the one-shot digest of the whole content,
for every positive chunk size. -/
theorem digestStream_eq (c : Nat) (content : List Nat) (hc : 0 < c) :
    digestStream c content = sha256hex content := by
  unfold digestStream
  rw [readLoopF_spec c hc _ _ _ (Nat.lt_succ_self _), List.nil_append]

/-- Every SHA-256 hex digest has exactly 64 characters. -/
theorem sha256hex_length (msg : List Nat) : (sha256hex msg).length = 64 := by
  simp [sha256hex, wordBytes, byteHex, String.length]

/-- When a file's read succeeds, `hash_file` returns the one-shot digest of
its content. -/
theorem hash_file_ok (read : FPath → Except PyErr (List Nat)) (p : FPath)
    (bs : List Nat) (hr : read p = Except.ok bs) :
    hash_file read p = Except.ok (digestStream CHUNK_SIZE bs) := by
  unfold hash_file hash_file_chunked
  rw [hr]

/-- When every read succeeds, `compute_hashes` succeeds and returns the
input paths, in order, each paired with the digest of its content. -/
theorem compute_hashes_ok (read : FPath → Except PyErr (List Nat)) :
    ∀ files : List FPath, (∀ p ∈ files, ∃ bs, read p = Except.ok bs) →
      ∃ out, compute_hashes read files = Except.ok out ∧
        out.map Prod.fst = files ∧
        ∀ e ∈ out, ∃ bs, read e.1 = Except.ok bs ∧
          e.2 = digestStream CHUNK_SIZE bs := by
  intro files
  induction files with
  | nil => exact fun _ => ⟨[], rfl, rfl, by simp⟩
  | cons p rest ih =>
      intro h
      obtain ⟨bs, hbs⟩ := h p (List.mem_cons_self _ _)
      obtain ⟨out, hout, hfst, hdig⟩ :=
        ih (fun q hq => h q (List.mem_cons_of_mem _ hq))
      unfold compute_hashes at hout
      cases hg : gatherE (rest.map fun fp => hash_file read fp) with
      | error e => rw [hg] at hout; exact absurd hout (by simp)
      | ok hs =>
          rw [hg] at hout
          have hzip : rest.zip hs = out := by
            simpa using hout
          refine ⟨(p, digestStream CHUNK_SIZE bs) :: out, ?_, ?_, ?_⟩
          · unfold compute_hashes
            simp only [List.map_cons, hash_file_ok read p bs hbs, gatherE, hg,
              List.zip_cons_cons, hzip]
          · simp [hfst]
          · intro e he
            rcases List.mem_cons.mp he with he | he
            · exact ⟨bs, by rw [he]; exact hbs, by rw [he]⟩
            · exact hdig e he

/-- If some file's read fails, `compute_hashes` propagates an error and
returns no aggregation at all. -/
theorem compute_hashes_err (read : FPath → Except PyErr (List Nat)) :
    ∀ files : List FPath, (∃ p ∈ files, ∃ e, read p = Except.error e) →
      ∃ e, compute_hashes read files = Except.error e := by
  intro files
  induction files with
  | nil => rintro ⟨p, hp, -⟩; exact absurd hp (List.not_mem_nil _)
  | cons p rest ih =>
      rintro ⟨q, hq, e, he⟩
      cases hh : hash_file read q with
      | error e' =>
          rcases List.mem_cons.mp hq with rfl | hq'
          · refine ⟨e', ?_⟩
            unfold compute_hashes
            simp only [List.map_cons, hh, gatherE]
          · cases hph : hash_file read p with
            | error ep =>
                refine ⟨ep, ?_⟩
                unfold compute_hashes
                simp only [List.map_cons, hph, gatherE]
            | ok d =>
                obtain ⟨er, her⟩ := ih ⟨q, hq', e, he⟩
                unfold compute_hashes at her
                cases hg : gatherE (rest.map fun fp => hash_file read fp) with
                | error eg =>
                    refine ⟨eg, ?_⟩
                    unfold compute_hashes
                    simp only [List.map_cons, hph, gatherE, hg]
                | ok hs => rw [hg] at her; exact absurd her (by simp)
      | ok d =>
          exfalso
          unfold hash_file hash_file_chunked at hh
          rw [he] at hh
          exact absurd hh (by simp)

/-- `compute_hashes` on a single file whose read succeeds. -/
theorem compute_hashes_singleton (read : FPath → Except PyErr (List Nat))
    (p : FPath) (bs : List Nat) (hr : read p = Except.ok bs) :
    compute_hashes read [p] =
      Except.ok [(p, digestStream CHUNK_SIZE bs)] := by
  unfold compute_hashes
  simp only [List.map_cons, List.map_nil, hash_file_ok read p bs hr, gatherE]
  rfl

/-- Each scheduler step preserves the number of tasks. -/
theorem hashTaskStep_length {s t : List TaskPhase} (h : HashTaskStep s t) :
    t.length = s.length := by
  cases h <;> simp

/-- Every reachable pool state has one slot per spawned task. -/
theorem gatherReach_length (n : Nat) (s : List TaskPhase)
    (h : gatherReach n s) : s.length = n := by
  unfold gatherReach at h
  induction h with
  | refl => exact List.length_replicate _ _
  | tail _ hstep ih => rw [hashTaskStep_length hstep, ih]

/-- In a duplicate-free list, every member is counted exactly once. -/
theorem count_eq_one_of_nodup_of_mem {α : Type} [BEq α] [LawfulBEq α]
    {l : List α} {a : α} (hnd : l.Nodup) (ha : a ∈ l) : l.count a = 1 := by
  induction l with
  | nil => exact absurd ha (List.not_mem_nil _)
  | cons b t ih =>
      rcases List.nodup_cons.mp hnd with ⟨hb, ht⟩
      rcases List.mem_cons.mp ha with rfl | hat
      · rw [List.count_cons_self, List.count_eq_zero.mpr hb]
      · have hne : a ≠ b := fun he => hb (he ▸ hat)
        rw [List.count_cons_of_ne hne, ih ht hat]

/-! ## The claims -/

/-- C1: for every list of discovered file paths (pairwise distinct, as a
single traversal produces them) on which every read succeeds, the
aggregation returned by `compute_hashes` contains each input path exactly
once among its keys — none dropped, none duplicated — and pairs each with
the digest of that path's content. -/
theorem compute_hashes_contains_each_path_once
    (read : FPath → Except PyErr (List Nat)) (files : List FPath)
    (hok : ∀ p ∈ files, ∃ bs, read p = Except.ok bs) (hnd : files.Nodup) :
    ∃ out, compute_hashes read files = Except.ok out ∧
      (∀ p ∈ files, (out.map Prod.fst).count p = 1) ∧
      (∀ p, p ∉ files → (out.map Prod.fst).count p = 0) ∧
      ∀ e ∈ out, ∃ bs, read e.1 = Except.ok bs ∧
        e.2 = digestStream CHUNK_SIZE bs := by
  obtain ⟨out, h1, h2, h3⟩ := compute_hashes_ok read files hok
  refine ⟨out, h1, ?_, ?_, h3⟩
  · intro p hp
    rw [h2]
    exact count_eq_one_of_nodup_of_mem hnd hp
  · intro p hp
    rw [h2]
    exact List.count_eq_zero.mpr hp

/-- C1 witness: two distinct paths whose reads both succeed. -/
theorem compute_hashes_contains_each_path_once_witness :
    ∃ out, compute_hashes (readConst [104]) [["a"], ["b"]] =
        Except.ok out ∧
      (∀ p ∈ [["a"], ["b"]], (out.map Prod.fst).count p = 1) ∧
      (∀ p, p ∉ [["a"], ["b"]] → (out.map Prod.fst).count p = 0) ∧
      ∀ e ∈ out, ∃ bs, readConst [104] e.1 = Except.ok bs ∧
        e.2 = digestStream CHUNK_SIZE bs :=
  compute_hashes_contains_each_path_once (readConst [104])
    [["a"], ["b"]] (fun _ _ => ⟨[104], rfl⟩) (by decide)

/-- C2 counterexample: two discovered files, the second of which fails to
read; `compute_hashes` returns the propagated error — the sibling's
successful digest is not part of any aggregation and no failure entry is
recorded, contrary to the claim. -/
theorem compute_hashes_failure_isolation_counterexample :
    compute_hashes
      (fun p => if p = ["bad"] then Except.error PyErr.ioError
        else Except.ok [104])
      [["good"], ["bad"]] = Except.error PyErr.ioError := by
  decide

/-- C2 amended: if opening or reading any file in the batch fails, the
error propagates out of `compute_hashes` (fail-fast): no aggregation is
returned, so the failing file is not recorded as a failure entry and the
sibling results are discarded. -/
theorem compute_hashes_read_failure_fails_batch
    (read : FPath → Except PyErr (List Nat)) (files : List FPath)
    (h : ∃ p ∈ files, ∃ e, read p = Except.error e) :
    ∃ e, compute_hashes read files = Except.error e :=
  compute_hashes_err read files h

/-- C2 witness: a batch with one failing file. -/
theorem compute_hashes_read_failure_fails_batch_witness :
    ∃ e, compute_hashes (fun _ => Except.error PyErr.ioError) [["bad"]] =
      Except.error e :=
  compute_hashes_read_failure_fails_batch (fun _ => Except.error PyErr.ioError)
    [["bad"]] ⟨["bad"], by decide, PyErr.ioError, rfl⟩

/-- C3 counterexample: for a missing root directory, `collect_files`
returns the empty result set normally instead of failing with an error. -/
theorem collect_files_missing_dir_counterexample :
    collect_files RootState.missing = Except.ok [] := rfl

/-- C3 amended: for a missing or unreadable root directory,
`collect_files` surfaces no error at all: the recursive glob of CPython
`pathlib` swallows the underlying `OSError`/`PermissionError` and the
function returns an empty list. -/
theorem collect_files_swallows_glob_errors (es : List FSEntry) :
    collect_files RootState.missing = Except.ok [] ∧
      collect_files (RootState.unreadable es) = Except.ok [] :=
  ⟨rfl, rfl⟩

/-- C4: when the file's read succeeds, the streaming digest computed by
`hash_file` with any positive chunk size equals the hex-encoded SHA-256 of
the file's full byte content computed in one shot; in particular the
digest is a function of the content alone (deterministic across runs) and
independent of the chunk size. -/
theorem hash_file_streaming_eq_oneshot (c : Nat)
    (read : FPath → Except PyErr (List Nat)) (p : FPath) (bs : List Nat)
    (hc : 0 < c) (hr : read p = Except.ok bs) :
    hash_file_chunked c read p = Except.ok (sha256hex bs) ∧
      ∀ c', 0 < c' → hash_file_chunked c' read p = hash_file_chunked c read p := by
  have h1 : ∀ c'', 0 < c'' →
      hash_file_chunked c'' read p = Except.ok (sha256hex bs) := by
    intro c'' hc''
    unfold hash_file_chunked
    rw [hr]
    show Except.ok (digestStream c'' bs) = Except.ok (sha256hex bs)
    rw [digestStream_eq _ _ hc'']
  exact ⟨h1 c hc, fun c' hc' => by rw [h1 c' hc', h1 c hc]⟩

/-- C4 witness: the content `"hello"` read with chunk size 3. -/
theorem hash_file_streaming_eq_oneshot_witness :
    hash_file_chunked 3 (fun _ => Except.ok [104, 101, 108, 108, 111]) ["f"] =
        Except.ok (sha256hex [104, 101, 108, 108, 111]) ∧
      ∀ c', 0 < c' →
        hash_file_chunked c' (fun _ => Except.ok [104, 101, 108, 108, 111]) ["f"] =
          hash_file_chunked 3 (fun _ => Except.ok [104, 101, 108, 108, 111]) ["f"] :=
  hash_file_streaming_eq_oneshot 3 (fun _ => Except.ok [104, 101, 108, 108, 111])
    ["f"] [104, 101, 108, 108, 111] (by decide) rfl

/-- C5: every successful `hash_file` digest is exactly 64 hexadecimal
characters, whatever the file's size; a zero-byte file hashes successfully
to SHA-256's defined empty-input digest. -/
theorem hash_file_digest_64_hex (read : FPath → Except PyErr (List Nat))
    (p : FPath) (bs : List Nat) (hr : read p = Except.ok bs) :
    ∃ d, hash_file read p = Except.ok d ∧ d.length = 64 ∧
      (bs = [] →
        d = "e3b0c44298fc1c149afbf4c8996fb92427ae41e4649b934ca495991b7852b855") := by
  refine ⟨digestStream CHUNK_SIZE bs, hash_file_ok read p bs hr, ?_, ?_⟩
  · rw [digestStream_eq _ _ (by decide : 0 < CHUNK_SIZE)]
    exact sha256hex_length bs
  · rintro rfl
    rw [digestStream_eq _ _ (by decide : 0 < CHUNK_SIZE)]
    decide

/-- C5 witness: a zero-byte file. -/
theorem hash_file_digest_64_hex_witness :
    ∃ d, hash_file (fun _ => Except.ok []) ["empty"] = Except.ok d ∧
      d.length = 64 ∧
      (([] : List Nat) = [] →
        d = "e3b0c44298fc1c149afbf4c8996fb92427ae41e4649b934ca495991b7852b855") :=
  hash_file_digest_64_hex (fun _ => Except.ok []) ["empty"] [] rfl

/-- C6: for a readable root whose tree contains no regular files (in
particular an empty directory), discovery returns the empty result set and
the whole run aggregates to the empty mapping — a success, not an error. -/
theorem empty_tree_empty_aggregation (es : List FSEntry)
    (h : ∀ pe ∈ rglobList [] es, is_file pe.2 = false) :
    collect_files (RootState.present es) = Except.ok [] ∧
      process_files (RootState.present es) = Except.ok [] := by
  have hfil : (rglobList [] es).filter
      (fun pe => is_file pe.2 && !(pe.1.contains ".git")) = [] := by
    refine List.filter_eq_nil_iff.mpr fun pe hpe => ?_
    simp [h pe hpe]
  have hcol : collect_files (RootState.present es) = Except.ok [] := by
    show Except.ok (((rglobList [] es).filter
        (fun pe => is_file pe.2 && !(pe.1.contains ".git"))).map Prod.fst) =
      Except.ok []
    rw [hfil]
    rfl
  refine ⟨hcol, ?_⟩
  unfold process_files
  rw [hcol]
  rfl

/-- C6 witness: a root holding one empty subdirectory and nothing else. -/
theorem empty_tree_empty_aggregation_witness :
    collect_files (RootState.present [FSEntry.dir "sub" []]) = Except.ok [] ∧
      process_files (RootState.present [FSEntry.dir "sub" []]) = Except.ok [] :=
  empty_tree_empty_aggregation [FSEntry.dir "sub" []]
    (by simp [rglobList, is_file, resolveEntry])

/-- C7 counterexample: a symbolic link that resolves to a regular file is
treated as a regular file by discovery and appears in the discovered path
set, contrary to the claim that symlinks are excluded by default. -/
theorem symlink_discovered_counterexample :
    collect_files
      (RootState.present [FSEntry.symlink "link.txt" (FSEntry.file "real.txt" [104])]) =
      Except.ok [["link.txt"]] := by
  simp [collect_files, rglobList, is_file, resolveEntry, List.filter,
    List.contains]

/-- C7 amended: discovery yields a symbolic link exactly when it resolves
to a regular file (`Path.is_file()` follows links), while the recursive
traversal never descends through a symlink to a directory — the contents
of a symlinked directory are not enumerated. -/
theorem symlink_discovery_policy (name : String) (t : FSEntry)
    (hname : name ≠ ".git") :
    collect_files (RootState.present [FSEntry.symlink name t]) =
        Except.ok (if is_file (FSEntry.symlink name t) then [[name]] else []) ∧
      ∀ d ch, collect_files
          (RootState.present [FSEntry.symlink name (FSEntry.dir d ch)]) =
        Except.ok [] := by
  constructor
  · cases hf : is_file (FSEntry.symlink name t) <;>
      simp [collect_files, rglobList, List.filter, List.contains, hf,
        Ne.symm hname]
  · intro d ch
    simp [collect_files, rglobList, List.filter, List.contains, is_file,
      resolveEntry, Ne.symm hname]

/-- C7 witness: a symlink to a regular file under a root. -/
theorem symlink_discovery_policy_witness :
    collect_files
        (RootState.present [FSEntry.symlink "link.txt" (FSEntry.file "real.txt" [])]) =
        Except.ok
          (if is_file (FSEntry.symlink "link.txt" (FSEntry.file "real.txt" []))
            then [["link.txt"]] else []) ∧
      ∀ d ch, collect_files
          (RootState.present [FSEntry.symlink "link.txt" (FSEntry.dir d ch)]) =
        Except.ok [] :=
  symlink_discovery_policy "link.txt" (FSEntry.file "real.txt" []) (by decide)

/-- C8 counterexample: with two input files and concurrency limit 1, the
pool of tasks spawned by `compute_hashes` reaches a state in which both
files are open simultaneously — no limit `N` bounds the number of open
descriptors, because nothing gates task starts. -/
theorem gather_exceeds_limit_counterexample :
    gatherReach 2 [TaskPhase.opened, TaskPhase.opened] ∧
      1 < openCount [TaskPhase.opened, TaskPhase.opened] := by
  constructor
  · have s1 : HashTaskStep [TaskPhase.pending, TaskPhase.pending]
        [TaskPhase.opened, TaskPhase.pending] :=
      HashTaskStep.openFile [] [TaskPhase.pending]
    have s2 : HashTaskStep [TaskPhase.opened, TaskPhase.pending]
        [TaskPhase.opened, TaskPhase.opened] :=
      HashTaskStep.openFile [TaskPhase.opened] []
    exact Relation.ReflTransGen.tail (Relation.ReflTransGen.tail
      Relation.ReflTransGen.refl s1) s2
  · decide

/-- C8 amended: the number of simultaneously open file descriptors in the
task pool spawned by `compute_hashes` is bounded only by the total number
of input files; the source has no configurable concurrency limit. -/
theorem open_files_bounded_by_task_count (n : Nat) (s : List TaskPhase)
    (h : gatherReach n s) : openCount s ≤ n := by
  calc openCount s ≤ s.length := List.count_le_length _ _
    _ = n := gatherReach_length n s h

/-- C8 witness: one task, one reachable state. -/
theorem open_files_bounded_by_task_count_witness :
    openCount [TaskPhase.opened] ≤ 1 :=
  open_files_bounded_by_task_count 1 [TaskPhase.opened]
    (Relation.ReflTransGen.single (HashTaskStep.openFile [] []))

/-- C9: for a tree holding exactly `a.txt` with content `"hello"` and
`.git/config` with any content, the aggregation holds exactly one entry,
for `a.txt`, carrying the SHA-256 digest of `"hello"`, and no entry for
`.git/config`. -/
theorem scenario_hello_and_git_config (cfg : List Nat) :
    process_files (RootState.present
        [FSEntry.file "a.txt" [104, 101, 108, 108, 111],
         FSEntry.dir ".git" [FSEntry.file "config" cfg]]) =
      Except.ok [(["a.txt"],
        "2cf24dba5fb0a30e26e83b2ac5b9e29e1b161e5c1fa7425e73043362938b9824")] := by
  have hc : collect_files (RootState.present
      [FSEntry.file "a.txt" [104, 101, 108, 108, 111],
       FSEntry.dir ".git" [FSEntry.file "config" cfg]]) =
      Except.ok [["a.txt"]] := by
    simp [collect_files, rglobList, is_file, resolveEntry, List.filter,
      List.contains]
  have hr : readEntry (RootState.present
      [FSEntry.file "a.txt" [104, 101, 108, 108, 111],
       FSEntry.dir ".git" [FSEntry.file "config" cfg]]) ["a.txt"] =
      Except.ok [104, 101, 108, 108, 111] := rfl
  unfold process_files
  rw [hc]
  show compute_hashes (readEntry (RootState.present
      [FSEntry.file "a.txt" [104, 101, 108, 108, 111],
       FSEntry.dir ".git" [FSEntry.file "config" cfg]])) [["a.txt"]] = _
  rw [compute_hashes_singleton _ _ _ hr]
  decide

/-- C10: whenever every read succeeds, `compute_hashes` returns exactly
one pair per input path, in exactly the input list's order — the
aggregation is positional. -/
theorem compute_hashes_positional_aggregation
    (read : FPath → Except PyErr (List Nat)) (files : List FPath)
    (hok : ∀ p ∈ files, ∃ bs, read p = Except.ok bs) :
    ∃ out, compute_hashes read files = Except.ok out ∧
      out.map Prod.fst = files ∧ out.length = files.length := by
  obtain ⟨out, h1, h2, _⟩ := compute_hashes_ok read files hok
  exact ⟨out, h1, h2, by rw [← h2, List.length_map]⟩

/-- C10 witness: three paths, all readable. -/
theorem compute_hashes_positional_aggregation_witness :
    ∃ out, compute_hashes (fun _ => Except.ok []) [["x"], ["y"], ["z"]] =
        Except.ok out ∧
      out.map Prod.fst = [["x"], ["y"], ["z"]] ∧
      out.length = ([["x"], ["y"], ["z"]] : List FPath).length :=
  compute_hashes_positional_aggregation (fun _ => Except.ok [])
    [["x"], ["y"], ["z"]] (fun _ _ => ⟨[], rfl⟩)

end DownloadAndHash
